import Mathlib

/-!
# Verification of the hydra entity-state router core

Shallow embedding of the core of the `projectqai/hydra` repository:
the entity data model, the recursive filter matcher
(`engine` package, `matchesEntityFilter` and its helpers), the
per-consumer priority-segregated dirty set (`markDirty` / `popNext`),
the sender-loop drain step, the push pipeline with lifetime
normalization and freeze handling, and the lifetime garbage collector.

Modelling conventions:
* Go pointers that may be nil become `Option`.
* Wall-clock instants are modelled as integers; a protobuf
  `Timestamp` becomes an integer instant together with a validity
  flag (abstracting protobuf's range check, under which a nil
  timestamp is invalid).  `time.Time.After` is strict `<` on instants.
* Geographic coordinates (float64 in Go) are modelled as integers:
  the matcher only ever compares coordinates, never does arithmetic
  on them, so any linearly ordered carrier is faithful.
* Go maps become association lists with deterministic traversal;
  the code's own spec declares map-iteration tie-breaks unordered,
  so a deterministic refinement is faithful.
* Components whose payload the core never inspects (camera,
  detection, bearing, track, locator, location uncertainty,
  controller) are modelled as `Option Unit`: only presence matters.
-/

/-- Protobuf timestamp: an instant plus a validity flag. -/
structure Timestamp where
  time : Int
  valid : Bool
deriving Repr, DecidableEq

/-- `(*timestamppb.Timestamp).IsValid()`: a nil timestamp is invalid. -/
def tsIsValid : Option Timestamp → Bool
  | none => false
  | some t => t.valid

/-- Lifetime component: `{from?: instant, until?: instant}`. -/
structure Lifetime where
  fromT : Option Timestamp
  untilT : Option Timestamp
deriving Repr, DecidableEq

/-- Delivery priority enum, wire values 0..3. -/
inductive Priority where
  | unspecified
  | routine
  | immediate
  | flash
deriving Repr, DecidableEq

/-- Wire value of a priority (`Priority_PriorityUnspecified = 0` …). -/
def Priority.toNat : Priority → Nat
  | .unspecified => 0
  | .routine => 1
  | .immediate => 2
  | .flash => 3

/-- Change kinds on the wire: `invalid=0, updated=1, expired=2, unobserved=3`. -/
inductive EntityChange where
  | invalid
  | updated
  | expired
  | unobserved
deriving Repr, DecidableEq

/-- Geo component `{latitude, longitude}` (altitude is never read by the core). -/
structure GeoComponent where
  longitude : Int
  latitude : Int
deriving Repr, DecidableEq

/-- `pb.TaskableContext`. -/
structure TaskableContext where
  entityId : Option String
deriving Repr, DecidableEq

/-- `pb.TaskableAssignee`. -/
structure TaskableAssignee where
  entityId : Option String
deriving Repr, DecidableEq

/-- `pb.TaskableComponent`: context and assignee relationship lists. -/
structure TaskableComponent where
  context : List TaskableContext
  assignee : List TaskableAssignee
deriving Repr, DecidableEq

/-- `pb.ConfigurationComponent`: only `Controller` and `Key` are read by the matcher. -/
structure ConfigurationComponent where
  controller : String
  key : String
deriving Repr, DecidableEq

/-- `pb.Entity`: an ID plus an open bag of optional components. -/
structure Entity where
  id : String
  label : Option String := none
  controller : Option Unit := none
  lifetime : Option Lifetime := none
  priority : Option Priority := none
  geo : Option GeoComponent := none
  symbol : Option String := none
  camera : Option Unit := none
  detection : Option Unit := none
  bearing : Option Unit := none
  locationUncertainty : Option Unit := none
  track : Option Unit := none
  locator : Option Unit := none
  taskable : Option TaskableComponent := none
  config : Option ConfigurationComponent := none
deriving Repr, DecidableEq

/-- `pb.Point` of a planar geometry (lon/lat pair). -/
structure PlanarPoint where
  longitude : Int
  latitude : Int
deriving Repr, DecidableEq

/-- `pb.Line`: an open polyline. -/
structure PlanarLine where
  points : List PlanarPoint
deriving Repr, DecidableEq

/-- `pb.Polygon`: outer ring plus holes. -/
structure PlanarPolygon where
  outer : Option PlanarLine
  holes : List PlanarLine
deriving Repr, DecidableEq

/-- The `Plane` oneof of `pb.PlanarGeometry`. -/
inductive PlanarPlane where
  | point : Option PlanarPoint → PlanarPlane
  | line : Option PlanarLine → PlanarPlane
  | polygon : Option PlanarPolygon → PlanarPlane
deriving Repr, DecidableEq

/-- `pb.PlanarGeometry` (the oneof field may be unset). -/
structure PlanarGeometry where
  plane : Option PlanarPlane
deriving Repr, DecidableEq

/-- `pb.Geometry`: the matcher only reads the `Planar` field. -/
structure Geometry where
  planar : Option PlanarGeometry
deriving Repr, DecidableEq

/-- The `Geo` oneof of `pb.GeoFilter`: inline geometry or entity reference. -/
inductive GeoFilterGeo where
  | geometry : Option Geometry → GeoFilterGeo
  | geoEntityId : String → GeoFilterGeo
deriving Repr, DecidableEq

/-- `pb.GeoFilter`. -/
structure GeoFilter where
  geo : Option GeoFilterGeo
deriving Repr, DecidableEq

/-- `pb.ConfigFilter`: optional exact-match on controller and key. -/
structure ConfigFilter where
  controller : Option String
  key : Option String
deriving Repr, DecidableEq

/-- `pb.TaskableFilter`: optional context / assignee membership tests. -/
structure TaskableFilter where
  context : Option TaskableContext
  assignee : Option TaskableAssignee
deriving Repr, DecidableEq

/-- `pb.EntityFilter`: recursive filter expression.  The `or` list holds
pointers in Go, so its elements are again optional. -/
inductive EntityFilter where
  | mk : List (Option EntityFilter) → Option EntityFilter → Option String →
      Option String → List Nat → Option ConfigFilter → Option TaskableFilter →
      Option GeoFilter → EntityFilter

/-- `entityHasComponent`: fixed mapping from stable integer tags to
component presence. -/
def entityHasComponent (entity : Entity) (field : Nat) : Bool :=
  match field with
  | 2 => entity.label.isSome
  | 3 => entity.controller.isSome
  | 4 => entity.lifetime.isSome
  | 5 => entity.priority.isSome
  | 11 => entity.geo.isSome
  | 12 => entity.symbol.isSome
  | 15 => entity.camera.isSome
  | 16 => entity.detection.isSome
  | 17 => entity.bearing.isSome
  | 20 => entity.locationUncertainty.isSome
  | 21 => entity.track.isSome
  | 22 => entity.locator.isSome
  | 23 => entity.taskable.isSome
  | 31 => entity.config.isSome
  | _ => false

/-- `matchesComponentList`: entity must have ALL listed components;
an empty list does not constrain. -/
def matchesComponentList (entity : Entity) (components : List Nat) : Bool :=
  if components.length = 0 then true
  else components.all (fun field => entityHasComponent entity field)

/-- `taskableContainsContext`. -/
def taskableContainsContext (taskable : Option TaskableComponent)
    (ctx : Option TaskableContext) : Bool :=
  match taskable, ctx with
  | some t, some c =>
    match c.entityId with
    | none => false
    | some cid => t.context.any (fun r => r.entityId = some cid)
  | _, _ => false

/-- `taskableContainsAssignee`. -/
def taskableContainsAssignee (taskable : Option TaskableComponent)
    (assignee : Option TaskableAssignee) : Bool :=
  match taskable, assignee with
  | some t, some a =>
    match a.entityId with
    | none => false
    | some aid => t.assignee.any (fun r => r.entityId = some aid)
  | _, _ => false

/-- The planar shapes produced by `planarToOrb` (orb geometries). -/
inductive OrbGeometry where
  | point : Int × Int → OrbGeometry
  | lineString : List (Int × Int) → OrbGeometry
  | polygon : List (List (Int × Int)) → OrbGeometry
deriving Repr, DecidableEq

/-- Lon/lat pair of a planar point, in orb order. -/
def orbPt (p : PlanarPoint) : Int × Int := (p.longitude, p.latitude)

/-- `planarToOrb`: convert a protobuf planar geometry to an orb geometry;
degenerate inputs yield `none` (Go returns a nil geometry). -/
def planarToOrb : Option PlanarGeometry → Option OrbGeometry
  | none => none
  | some planar =>
    match planar.plane with
    | none => none
    | some (.point p) =>
      match p with
      | some pt => some (.point (orbPt pt))
      | none => none
    | some (.line l) =>
      match l with
      | some ln =>
        if ln.points.length > 0 then some (.lineString (ln.points.map orbPt))
        else none
      | none => none
    | some (.polygon poly) =>
      match poly with
      | some pg =>
        match pg.outer with
        | some outerLine =>
          if outerLine.points.length > 0 then
            some (.polygon (outerLine.points.map orbPt ::
              (pg.holes.filter (fun h => h.points.length > 0)).map
                (fun h => h.points.map orbPt)))
          else none
        | none => none
      | none => none

/-- Axis-aligned bounding box (orb `Bound`). -/
structure Bound where
  minX : Int
  minY : Int
  maxX : Int
  maxY : Int
deriving Repr, DecidableEq

/-- Bound of a single point. -/
def pointBound (p : Int × Int) : Bound :=
  { minX := p.1, minY := p.2, maxX := p.1, maxY := p.2 }

/-- Extend a bound to cover a point (orb `Bound.Extend`). -/
def boundExtend (b : Bound) (p : Int × Int) : Bound :=
  { minX := min b.minX p.1, minY := min b.minY p.2,
    maxX := max b.maxX p.1, maxY := max b.maxY p.2 }

/-- Bound of a point list (orb `MultiPoint.Bound`); the empty case is
unreachable by construction of `planarToOrb`. -/
def multiPointBound : List (Int × Int) → Bound
  | [] => pointBound (0, 0)
  | p :: rest => rest.foldl boundExtend (pointBound p)

/-- Bound of an orb geometry; a polygon's bound is its first ring's bound. -/
def OrbGeometry.bound : OrbGeometry → Bound
  | .point p => pointBound p
  | .lineString ps => multiPointBound ps
  | .polygon rings =>
    match rings with
    | [] => pointBound (0, 0)
    | r :: _ => multiPointBound r

/-- orb `Bound.Intersects`: interval overlap on both axes. -/
def boundIntersects (b bound : Bound) : Bool :=
  ! (b.maxX < bound.minX || b.minX > bound.maxX ||
     b.maxY < bound.minY || b.minY > bound.maxY)

/-- `entityIntersectsGeoFilter`: geographic predicate of the matcher.
No filter matches everything; an entity without geo matches nothing;
the `geoEntityId` variant is a TODO in the code and matches everything;
degenerate geometries match everything; otherwise bounding boxes must
intersect. -/
def entityIntersectsGeoFilter (entity : Entity) (geoFilter : Option GeoFilter) : Bool :=
  match geoFilter with
  | none => true
  | some gf =>
    match entity.geo with
    | none => false
    | some g =>
      let entityPoint : Int × Int := (g.longitude, g.latitude)
      match gf.geo with
      | some (.geometry geom) =>
        match geom with
        | none => true
        | some gm =>
          match gm.planar with
          | none => true
          | somePlanar =>
            match planarToOrb somePlanar with
            | none => true
            | some filterGeom =>
              boundIntersects (pointBound entityPoint) filterGeom.bound
      | some (.geoEntityId _) => true
      | none => true

mutual

/-- `matchesEntityFilter`: a nil filter matches everything; a non-empty
`Or` list returns the disjunction of its sub-filters; otherwise a set
`Not` returns the negation of its inner filter; otherwise each populated
leaf (id, label, component list, geo, config, taskable) must pass. -/
def matchesEntityFilter (entity : Entity) : Option EntityFilter → Bool
  | none => true
  | some (.mk ors nf fId fLabel fComponent fConfig fTaskable fGeo) =>
    if ors.length > 0 then
      anyOrMatches entity ors
    else if nf.isSome then
      ! matchesEntityFilter entity nf
    else
      (match fId with
       | some i => entity.id = i
       | none => true) &&
      (match fLabel with
       | some l => entity.label = some l
       | none => true) &&
      matchesComponentList entity fComponent &&
      entityIntersectsGeoFilter entity fGeo &&
      (match fConfig with
       | some cf =>
         match entity.config with
         | none => false
         | some ec =>
           (match cf.controller with
            | some c => ec.controller = c
            | none => true) &&
           (match cf.key with
            | some k => ec.key = k
            | none => true)
       | none => true) &&
      (match fTaskable with
       | some tf =>
         (match tf.context with
          | some _ => taskableContainsContext entity.taskable tf.context
          | none => true) &&
         (match tf.assignee with
          | some _ => taskableContainsAssignee entity.taskable tf.assignee
          | none => true)
       | none => true)

/-- The `for _, orFilter := range filter.Or` loop: true iff some
sub-filter matches. -/
def anyOrMatches (entity : Entity) : List (Option EntityFilter) → Bool
  | [] => false
  | f :: rest => matchesEntityFilter entity f || anyOrMatches entity rest

end

/-! ## Per-consumer priority-segregated dirty set (`engine/consumer.go`) -/

/-- One slot of the dirty set: a Go `map[string]EntityChange`, modelled
as an association list with pairwise-distinct keys and deterministic
traversal (map-iteration tie-breaks are declared unordered). -/
abbrev Slot := List (String × EntityChange)

/-- The four-slot dirty array `dirty [4]map[string]EntityChange`,
indexed by priority. -/
abbrev Dirty := Priority → Slot

/-- The freshly initialized dirty set: four empty slots. -/
def dirtyInit : Dirty := fun _ => []

/-- `delete(c.dirty[p], entityID)`: drop the entry for a key. -/
def slotRemove (s : Slot) (id : String) : Slot :=
  s.filter (fun e => e.1 ≠ id)

/-- Membership of a key in a slot. -/
def slotHas (s : Slot) (id : String) : Bool :=
  s.any (fun e => e.1 = id)

/-- `minPriority()`: the configured minimum, defaulting to routine. -/
def minPriorityOf (limiterMinPriority : Option Priority) : Priority :=
  match limiterMinPriority with
  | some p => p
  | none => .routine

/-- `markDirty`: discard below `minPri`; otherwise remove the ID from
every slot (re-seat on priority change) and insert it into the selected
slot with the new kind. -/
def markDirty (minPri : Priority) (d : Dirty) (entityID : String)
    (priority : Priority) (change : EntityChange) : Dirty :=
  if priority.toNat < minPri.toNat then d
  else fun q =>
    if q = priority then slotRemove (d q) entityID ++ [(entityID, change)]
    else slotRemove (d q) entityID

/-- The scan of `popNext`, over an explicit priority order; takes the
first entry of the first eligible non-empty slot and removes it. -/
def popScan (minPri : Priority) (d : Dirty) :
    List Priority → Option (String × EntityChange × Priority) × Dirty
  | [] => (none, d)
  | p :: rest =>
    if p.toNat < minPri.toNat then popScan minPri d rest
    else
      match d p with
      | [] => popScan minPri d rest
      | (id, ch) :: tail =>
        (some (id, ch, p), fun q => if q = p then tail else d q)

/-- `popNext`: drain in priority order Flash(3) → Immediate(2) →
Routine(1) → Unspecified(0), skipping slots below `minPri`. -/
def popNext (minPri : Priority) (d : Dirty) :
    Option (String × EntityChange × Priority) × Dirty :=
  popScan minPri d [.flash, .immediate, .routine, .unspecified]

/-- Operations a consumer's dirty set undergoes. -/
inductive ConsumerOp where
  | mark (id : String) (p : Priority) (k : EntityChange)
  | pop
deriving Repr

/-- Apply one dirty-set operation. -/
def applyOp (minPri : Priority) (d : Dirty) : ConsumerOp → Dirty
  | .mark id p k => markDirty minPri d id p k
  | .pop => (popNext minPri d).2

/-- Apply a sequence of dirty-set operations. -/
def applyOps (minPri : Priority) (d : Dirty) (ops : List ConsumerOp) : Dirty :=
  ops.foldl (applyOp minPri) d

/-- Number of slots holding a given entity ID. -/
def slotCount (d : Dirty) (id : String) : Nat :=
  (if slotHas (d .unspecified) id then 1 else 0) +
  (if slotHas (d .routine) id then 1 else 0) +
  (if slotHas (d .immediate) id then 1 else 0) +
  (if slotHas (d .flash) id then 1 else 0)

/-! ## Head store, push pipeline, garbage collector
(`WorldServer.Push`, `gc`, `GetHead`) -/

/-- The head map, modelled as an association list with distinct keys in
insertion order. -/
abbrev Head := List (String × Entity)

/-- Go map read `s.head[id]`. -/
def headLookup (h : Head) (id : String) : Option Entity :=
  match h.find? (fun kv => kv.1 = id) with
  | some kv => some kv.2
  | none => none

/-- Go map write `s.head[id] = e`: update in place, or append when the
key is new. -/
def headInsert (h : Head) (id : String) (e : Entity) : Head :=
  match h with
  | [] => [(id, e)]
  | kv :: rest =>
    if kv.1 = id then (id, e) :: rest else kv :: headInsert rest id e

/-- The observable state of a `WorldServer` touched by push and gc:
head map, freeze flag and instant, the timeline-sink appends
(`store.Push`), the `bus.Dirty` notifications, and the `bus.publish`
events issued by the collector. -/
structure WorldState where
  head : Head
  frozen : Bool
  frozenAt : Int
  timeline : List Entity
  busDirty : List (String × Entity × EntityChange)
  busPublished : List (Entity × EntityChange)
deriving Repr, DecidableEq

/-- Lifetime normalization of `Push`: create the lifetime when absent;
set `from` to the acceptance instant when absent or invalid; never
touch `until`. -/
def normalizeLifetime (now : Int) (e : Entity) : Entity :=
  let lt := match e.lifetime with
    | none => ({ fromT := none, untilT := none } : Lifetime)
    | some l => l
  let lt := if tsIsValid lt.fromT then lt
            else { lt with fromT := some { time := now, valid := true } }
  { e with lifetime := some lt }

/-- The body of the push loop for one change: normalize, append to the
timeline, and unless frozen overwrite the head entry and notify the
bus with kind `updated`. -/
def pushOne (now : Int) (s : WorldState) (e : Entity) : WorldState :=
  let e' := normalizeLifetime now e
  let s' := { s with timeline := s.timeline ++ [e'] }
  if s'.frozen then s'
  else { s' with
    head := headInsert s'.head e'.id e',
    busDirty := s'.busDirty ++ [(e'.id, e', EntityChange.updated)] }

/-- The mutation loop of `Push` over a batch of changes. -/
def pushList (now : Int) (s : WorldState) (changes : List Entity) : WorldState :=
  changes.foldl (pushOne now) s

/-- `Push`: authorize every change first; any denial aborts with an
error before any side-effect; otherwise apply the batch and answer
`accepted = true`. `authDenied` is the abstract write-capability
check. -/
def push (now : Int) (authDenied : Entity → Bool) (s : WorldState)
    (changes : List Entity) : WorldState × Except Unit Bool :=
  if changes.any authDenied then (s, .error ())
  else (pushList now s changes, .ok true)

/-- The gc removal test for one head entry: lifetime present, `until`
valid (hence present), and strictly before `now`
(`now.After(until)`). -/
def gcExpired (now : Int) (v : Entity) : Bool :=
  match v.lifetime with
  | none => false
  | some lt =>
    match lt.untilT with
    | none => false
    | some u => u.valid && decide (u.time < now)

/-- The gc scan over the head map: keep live entries, and emit one
`(entity, expired)` publication per removed entry. -/
def gcSweep (now : Int) : Head → Head × List (Entity × EntityChange)
  | [] => ([], [])
  | (k, v) :: rest =>
    let (h, evs) := gcSweep now rest
    if gcExpired now v then (h, (v, EntityChange.expired) :: evs)
    else ((k, v) :: h, evs)

/-- A gc sweep of the world at a given instant. -/
def gcAt (now : Int) (s : WorldState) : WorldState :=
  { s with
    head := (gcSweep now s.head).1,
    busPublished := s.busPublished ++ (gcSweep now s.head).2 }

/-- `gc`: pick `now` as wall-time, or the recorded freeze instant when
frozen, then sweep. -/
def gcRun (wallNow : Int) (s : WorldState) : WorldState :=
  gcAt (if s.frozen then s.frozenAt else wallNow) s

/-! ## Sender loop drain step (`Consumer.SenderLoop`) -/

/-- `isExpired` of the sender loop: false when the lifetime or `until`
is absent or invalid, else `now.After(until)`. -/
def isExpired (now : Int) (entity : Entity) : Bool :=
  match entity.lifetime with
  | none => false
  | some lt =>
    match lt.untilT with
    | none => false
    | some u =>
      if !u.valid then false
      else decide (u.time < now)

/-- Outcome of one drained dirty-set entry in the sender loop:
either `send(entity, change)` is invoked — `rateLimited` records
whether the call had to pass the rate-limiter gate first — or the
entry is skipped. -/
inductive DrainResult where
  | send (entity : Option Entity) (change : EntityChange) (rateLimited : Bool)
  | skip
deriving Repr, DecidableEq

/-- The read-capability gate: denies only when an ability is configured,
the entity resolved, and `CanRead` answers false. -/
def readDenied (ability : Option (Entity → Bool)) (entity : Option Entity) : Bool :=
  match entity, ability with
  | some e, some canRead => ! canRead e
  | _, _ => false

/-- The body of `SenderLoop` for one entry drained by `popNext`:
resolve the head entity; apply the read policy; flash priority sends
immediately when the entity exists or the kind is expired; otherwise
override the kind to expired for missing or expired entities, apply
the filter to resolved entities, and send through the rate limiter. -/
def senderStep (head : Head) (ability : Option (Entity → Bool))
    (filter : Option EntityFilter) (hasRateLimiter : Bool) (now : Int)
    (entityID : String) (change : EntityChange) (priority : Priority) :
    DrainResult :=
  let entity := headLookup head entityID
  if readDenied ability entity then .skip
  else if priority = .flash then
    if entity.isSome || change = .expired then .send entity change false
    else .skip
  else
    match entity with
    | none => .send none .expired hasRateLimiter
    | some e =>
      let change := if isExpired now e then .expired else change
      match filter with
      | some f =>
        if ! matchesEntityFilter e (some f) then .skip
        else .send (some e) change hasRateLimiter
      | none => .send (some e) change hasRateLimiter

/-! ## Helper lemmas: head map -/

theorem headLookup_nil (id : String) : headLookup [] id = none := rfl

theorem headLookup_cons (kv : String × Entity) (rest : Head) (id : String) :
    headLookup (kv :: rest) id =
      if kv.1 = id then some kv.2 else headLookup rest id := by
  by_cases hk : kv.1 = id
  · simp [headLookup, List.find?_cons, hk]
  · simp [headLookup, List.find?_cons, hk]

theorem headLookup_headInsert_self (h : Head) (id : String) (e : Entity) :
    headLookup (headInsert h id e) id = some e := by
  induction h with
  | nil => simp [headInsert, headLookup_cons]
  | cons kv rest ih =>
    by_cases hk : kv.1 = id
    · simp [headInsert, hk, headLookup_cons]
    · simp only [headInsert, hk, if_false]
      rw [headLookup_cons]
      simp [hk, ih]

theorem headLookup_headInsert_other (h : Head) (id id' : String) (e : Entity)
    (hne : id' ≠ id) : headLookup (headInsert h id e) id' = headLookup h id' := by
  induction h with
  | nil => simp [headInsert, headLookup_cons, headLookup_nil, Ne.symm hne]
  | cons kv rest ih =>
    by_cases hk : kv.1 = id
    · simp only [headInsert, hk, if_true]
      rw [headLookup_cons, headLookup_cons, hk]
      simp [Ne.symm hne]
    · simp only [headInsert, hk, if_false]
      rw [headLookup_cons, headLookup_cons, ih]

/-! ## Helper lemmas: push pipeline -/

theorem normalizeLifetime_id (now : Int) (e : Entity) :
    (normalizeLifetime now e).id = e.id := rfl

theorem pushOne_frozen (now : Int) (s : WorldState) (e : Entity) :
    (pushOne now s e).frozen = s.frozen := by
  simp only [pushOne]
  split <;> rfl

theorem pushOne_frozenAt (now : Int) (s : WorldState) (e : Entity) :
    (pushOne now s e).frozenAt = s.frozenAt := by
  simp only [pushOne]
  split <;> rfl

theorem pushOne_timeline (now : Int) (s : WorldState) (e : Entity) :
    (pushOne now s e).timeline = s.timeline ++ [normalizeLifetime now e] := by
  simp only [pushOne]
  split <;> rfl

theorem pushOne_busPublished (now : Int) (s : WorldState) (e : Entity) :
    (pushOne now s e).busPublished = s.busPublished := by
  simp only [pushOne]
  split <;> rfl

theorem pushOne_head_frozen (now : Int) (s : WorldState) (e : Entity)
    (hf : s.frozen = true) : (pushOne now s e).head = s.head := by
  simp [pushOne, hf]

theorem pushOne_busDirty_frozen (now : Int) (s : WorldState) (e : Entity)
    (hf : s.frozen = true) : (pushOne now s e).busDirty = s.busDirty := by
  simp [pushOne, hf]

theorem pushOne_head (now : Int) (s : WorldState) (e : Entity)
    (hf : s.frozen = false) :
    (pushOne now s e).head =
      headInsert s.head e.id (normalizeLifetime now e) := by
  simp [pushOne, hf, normalizeLifetime_id]

theorem pushOne_busDirty (now : Int) (s : WorldState) (e : Entity)
    (hf : s.frozen = false) :
    (pushOne now s e).busDirty =
      s.busDirty ++ [(e.id, normalizeLifetime now e, EntityChange.updated)] := by
  simp [pushOne, hf, normalizeLifetime_id]

theorem pushList_frozen (now : Int) (s : WorldState) (cs : List Entity) :
    (pushList now s cs).frozen = s.frozen := by
  induction cs generalizing s with
  | nil => rfl
  | cons c rest ih => simpa [pushList, pushOne_frozen] using
      (ih (pushOne now s c)).trans (pushOne_frozen now s c)

theorem pushList_frozenAt (now : Int) (s : WorldState) (cs : List Entity) :
    (pushList now s cs).frozenAt = s.frozenAt := by
  induction cs generalizing s with
  | nil => rfl
  | cons c rest ih => simpa [pushList] using
      (ih (pushOne now s c)).trans (pushOne_frozenAt now s c)

theorem pushList_timeline (now : Int) (s : WorldState) (cs : List Entity) :
    (pushList now s cs).timeline =
      s.timeline ++ cs.map (normalizeLifetime now) := by
  induction cs generalizing s with
  | nil => simp [pushList]
  | cons c rest ih =>
    calc (pushList now s (c :: rest)).timeline
        = (pushList now (pushOne now s c) rest).timeline := rfl
      _ = (pushOne now s c).timeline ++ rest.map (normalizeLifetime now) :=
          ih (pushOne now s c)
      _ = s.timeline ++ (c :: rest).map (normalizeLifetime now) := by
          simp [pushOne_timeline]

theorem pushList_busPublished (now : Int) (s : WorldState) (cs : List Entity) :
    (pushList now s cs).busPublished = s.busPublished := by
  induction cs generalizing s with
  | nil => rfl
  | cons c rest ih => simpa [pushList] using
      (ih (pushOne now s c)).trans (pushOne_busPublished now s c)

theorem pushList_head_frozen (now : Int) (s : WorldState) (cs : List Entity)
    (hf : s.frozen = true) : (pushList now s cs).head = s.head := by
  induction cs generalizing s with
  | nil => rfl
  | cons c rest ih =>
    have h1 : (pushOne now s c).frozen = true := (pushOne_frozen now s c).trans hf
    calc (pushList now s (c :: rest)).head
        = (pushList now (pushOne now s c) rest).head := rfl
      _ = (pushOne now s c).head := ih (pushOne now s c) h1
      _ = s.head := pushOne_head_frozen now s c hf

theorem pushList_busDirty_frozen (now : Int) (s : WorldState) (cs : List Entity)
    (hf : s.frozen = true) : (pushList now s cs).busDirty = s.busDirty := by
  induction cs generalizing s with
  | nil => rfl
  | cons c rest ih =>
    have h1 : (pushOne now s c).frozen = true := (pushOne_frozen now s c).trans hf
    calc (pushList now s (c :: rest)).busDirty
        = (pushList now (pushOne now s c) rest).busDirty := rfl
      _ = (pushOne now s c).busDirty := ih (pushOne now s c) h1
      _ = s.busDirty := pushOne_busDirty_frozen now s c hf

theorem pushList_busDirty (now : Int) (s : WorldState) (cs : List Entity)
    (hf : s.frozen = false) :
    (pushList now s cs).busDirty = s.busDirty ++
      cs.map (fun e => (e.id, normalizeLifetime now e, EntityChange.updated)) := by
  induction cs generalizing s with
  | nil => simp [pushList]
  | cons c rest ih =>
    have h1 : (pushOne now s c).frozen = false := (pushOne_frozen now s c).trans hf
    calc (pushList now s (c :: rest)).busDirty
        = (pushList now (pushOne now s c) rest).busDirty := rfl
      _ = (pushOne now s c).busDirty ++
            rest.map (fun e => (e.id, normalizeLifetime now e, EntityChange.updated)) :=
          ih (pushOne now s c) h1
      _ = _ := by simp [pushOne_busDirty now s c hf]

/-- The last change of a batch carrying a given ID (the one whose head
write survives the batch). -/
def lastWith (cs : List Entity) (id : String) : Option Entity :=
  match cs with
  | [] => none
  | c :: rest =>
    match lastWith rest id with
    | some e => some e
    | none => if c.id = id then some c else none

theorem pushList_headLookup (now : Int) (s : WorldState) (cs : List Entity)
    (id : String) (hf : s.frozen = false) :
    headLookup (pushList now s cs).head id =
      match lastWith cs id with
      | some e => some (normalizeLifetime now e)
      | none => headLookup s.head id := by
  induction cs generalizing s with
  | nil => simp [pushList, lastWith]
  | cons c rest ih =>
    have h1 : (pushOne now s c).frozen = false := (pushOne_frozen now s c).trans hf
    have step : headLookup (pushList now s (c :: rest)).head id =
        match lastWith rest id with
        | some e => some (normalizeLifetime now e)
        | none => headLookup (pushOne now s c).head id := ih (pushOne now s c) h1
    rw [show lastWith (c :: rest) id =
        (match lastWith rest id with
         | some e => some e
         | none => if c.id = id then some c else none) from rfl]
    cases hl : lastWith rest id with
    | some e => simpa [hl] using step
    | none =>
      rw [step, hl]
      by_cases hc : c.id = id
      · subst hc
        simp [pushOne_head now s c hf, headLookup_headInsert_self]
      · simp [hc, pushOne_head now s c hf,
          headLookup_headInsert_other _ _ _ _ (Ne.symm hc)]

theorem lastWith_eq_none_of_not_mem (cs : List Entity) (id : String)
    (h : id ∉ cs.map Entity.id) : lastWith cs id = none := by
  induction cs with
  | nil => rfl
  | cons c rest ih =>
    simp only [List.map_cons, List.mem_cons, not_or] at h
    rw [show lastWith (c :: rest) id =
        (match lastWith rest id with
         | some e => some e
         | none => if c.id = id then some c else none) from rfl]
    rw [ih h.2]
    have : ¬ c.id = id := fun hc => h.1 hc.symm
    simp [this]

theorem lastWith_nodup (cs : List Entity) (e : Entity)
    (hnd : (cs.map Entity.id).Nodup) (hmem : e ∈ cs) :
    lastWith cs e.id = some e := by
  induction cs with
  | nil => cases hmem
  | cons c rest ih =>
    simp only [List.map_cons, List.nodup_cons] at hnd
    rw [show lastWith (c :: rest) e.id =
        (match lastWith rest e.id with
         | some x => some x
         | none => if c.id = e.id then some c else none) from rfl]
    rcases List.mem_cons.mp hmem with hc | hr
    · subst hc
      rw [lastWith_eq_none_of_not_mem rest e.id hnd.1]
      simp
    · rw [ih hnd.2 hr]

/-! ## Helper lemmas: dirty set -/

theorem slotHas_slotRemove_self (s : Slot) (id : String) :
    slotHas (slotRemove s id) id = false := by
  induction s with
  | nil => rfl
  | cons e rest ih =>
    by_cases he : e.1 = id
    · simp only [slotRemove, slotHas] at ih ⊢
      simp [List.filter_cons, he, ih]
    · simp only [slotRemove, slotHas] at ih ⊢
      simp [List.filter_cons, he, ih]

theorem slotHas_cons (e : String × EntityChange) (rest : Slot) (id : String) :
    slotHas (e :: rest) id = (decide (e.1 = id) || slotHas rest id) := by
  simp [slotHas]

theorem slotHas_slotRemove_other (s : Slot) (id id2 : String) (hne : id2 ≠ id) :
    slotHas (slotRemove s id) id2 = slotHas s id2 := by
  induction s with
  | nil => rfl
  | cons e rest ih =>
    by_cases he : e.1 = id
    · have hd : slotRemove (e :: rest) id = slotRemove rest id := by
        simp [slotRemove, List.filter_cons, he]
      have h2 : ¬ e.1 = id2 := by rw [he]; exact Ne.symm hne
      rw [hd, ih, slotHas_cons]
      simp [h2]
    · have hd : slotRemove (e :: rest) id = e :: slotRemove rest id := by
        simp [slotRemove, List.filter_cons, he]
      rw [hd, slotHas_cons, slotHas_cons, ih]

theorem slotHas_append (s t : Slot) (id : String) :
    slotHas (s ++ t) id = (slotHas s id || slotHas t id) := by
  simp [slotHas, List.any_append]

theorem markDirty_eq (minPri : Priority) (d : Dirty) (id : String)
    (p : Priority) (k : EntityChange) (hp : ¬ p.toNat < minPri.toNat)
    (q : Priority) :
    markDirty minPri d id p k q =
      if q = p then slotRemove (d q) id ++ [(id, k)]
      else slotRemove (d q) id := by
  simp [markDirty, hp]

theorem slotCount_markDirty_self (minPri : Priority) (d : Dirty) (id : String)
    (p : Priority) (k : EntityChange) (hp : ¬ p.toNat < minPri.toNat) :
    slotCount (markDirty minPri d id p k) id = 1 := by
  have hq : ∀ q : Priority,
      slotHas (markDirty minPri d id p k q) id = decide (q = p) := by
    intro q
    rw [markDirty_eq minPri d id p k hp q]
    by_cases hqp : q = p
    · rw [if_pos hqp, slotHas_append, slotHas_slotRemove_self]
      simp [slotHas, hqp]
    · rw [if_neg hqp, slotHas_slotRemove_self]
      simp [hqp]
  simp only [slotCount, hq]
  cases p <;> simp

theorem slotCount_markDirty_other (minPri : Priority) (d : Dirty) (id id2 : String)
    (p : Priority) (k : EntityChange) (hne : id2 ≠ id) :
    slotCount (markDirty minPri d id p k) id2 = slotCount d id2 := by
  by_cases hp : p.toNat < minPri.toNat
  · simp [markDirty, hp]
  · have hq : ∀ q : Priority,
        slotHas (markDirty minPri d id p k q) id2 = slotHas (d q) id2 := by
      intro q
      rw [markDirty_eq minPri d id p k hp q]
      by_cases hqp : q = p
      · rw [if_pos hqp, slotHas_append, slotHas_slotRemove_other _ _ _ hne]
        have hsingle : slotHas [(id, k)] id2 = false := by
          simp [slotHas, Ne.symm hne]
        rw [hsingle, Bool.or_false]
      · rw [if_neg hqp, slotHas_slotRemove_other _ _ _ hne]
    simp only [slotCount, hq]

theorem slotCount_popScan_le (minPri : Priority) (d : Dirty) (id : String) :
    ∀ L : List Priority, slotCount (popScan minPri d L).2 id ≤ slotCount d id := by
  intro L
  induction L with
  | nil => simp [popScan]
  | cons p rest ih =>
    by_cases hp : p.toNat < minPri.toNat
    · simpa [popScan, hp] using ih
    · rcases hd : d p with _ | ⟨⟨i0, c0⟩, tail⟩
      · simpa [popScan, hp, hd] using ih
      · simp only [popScan, hp, if_false, hd]
        have hpoint : ∀ q : Priority,
            (if slotHas (if q = p then tail else d q) id then 1 else 0) ≤
              (if slotHas (d q) id then 1 else 0) := by
          intro q
          by_cases hq : q = p
          · subst hq
            simp only [if_pos rfl, hd]
            by_cases ht : slotHas tail id
            · simp [ht, slotHas, slotHas.eq_def]
              by_cases h0 : i0 = id <;> simp [slotHas] at ht ⊢ <;> simp [ht]
            · simp [ht]
          · simp [hq]
        exact Nat.add_le_add (Nat.add_le_add (Nat.add_le_add
          (hpoint .unspecified) (hpoint .routine)) (hpoint .immediate))
          (hpoint .flash)

theorem slotCount_popNext_le (minPri : Priority) (d : Dirty) (id : String) :
    slotCount (popNext minPri d).2 id ≤ slotCount d id :=
  slotCount_popScan_le minPri d id _

theorem slotCount_applyOp_le_one (minPri : Priority) (d : Dirty) (id : String)
    (op : ConsumerOp) (h : slotCount d id ≤ 1) :
    slotCount (applyOp minPri d op) id ≤ 1 := by
  cases op with
  | mark id' p k =>
    by_cases hp : p.toNat < minPri.toNat
    · simpa [applyOp, markDirty, hp] using h
    · by_cases hid : id = id'
      · subst hid
        simpa [applyOp] using
          Nat.le_of_eq (slotCount_markDirty_self minPri d id p k hp)
      · simpa [applyOp, slotCount_markDirty_other minPri d id' id p k hid] using h
  | pop => exact le_trans (slotCount_popNext_le minPri d id) h

theorem slotCount_applyOps_le_one (minPri : Priority) (id : String) :
    ∀ (ops : List ConsumerOp) (d : Dirty), slotCount d id ≤ 1 →
      slotCount (applyOps minPri d ops) id ≤ 1 := by
  intro ops
  induction ops with
  | nil => intro d h; simpa [applyOps] using h
  | cons op rest ih =>
    intro d h
    exact ih (applyOp minPri d op) (slotCount_applyOp_le_one minPri d id op h)

/-! ## Helper lemmas: popNext scan -/

theorem popScan_some_inv (minPri : Priority) (d : Dirty) :
    ∀ (L : List Priority) (id : String) (ch : EntityChange) (p : Priority)
      (d' : Dirty), popScan minPri d L = (some (id, ch, p), d') →
      ¬ p.toNat < minPri.toNat ∧
      ∃ tail, d p = (id, ch) :: tail ∧
        d' = fun q => if q = p then tail else d q := by
  intro L
  induction L with
  | nil => intro id ch p d' h; simp [popScan] at h
  | cons a rest ih =>
    intro id ch p d' h
    by_cases ha : a.toNat < minPri.toNat
    · exact ih id ch p d' (by simpa [popScan, ha] using h)
    · rcases hd : d a with _ | ⟨⟨i0, c0⟩, tail⟩
      · exact ih id ch p d' (by simpa [popScan, ha, hd] using h)
      · simp only [popScan, ha, if_false, hd] at h
        have h1 := congrArg Prod.fst h
        have h2 := congrArg Prod.snd h
        simp only [Prod.fst, Prod.snd] at h1 h2
        have h3 : i0 = id ∧ c0 = ch ∧ a = p := by simpa using h1
        obtain ⟨hi, hc, hp⟩ := h3
        subst hi; subst hc; subst hp
        exact ⟨ha, tail, hd, h2.symm⟩

theorem popScan_none_of_empty (minPri : Priority) (d : Dirty) :
    ∀ L : List Priority,
      (∀ p ∈ L, ¬ p.toNat < minPri.toNat → d p = []) →
      popScan minPri d L = (none, d) := by
  intro L
  induction L with
  | nil => intro _; rfl
  | cons a rest ih =>
    intro h
    by_cases ha : a.toNat < minPri.toNat
    · simpa [popScan, ha] using ih (fun p hp => h p (List.mem_cons_of_mem a hp))
    · have hda : d a = [] := h a (List.mem_cons_self a rest) ha
      simp only [popScan, ha, if_false, hda]
      exact ih (fun p hp => h p (List.mem_cons_of_mem a hp))

theorem popScan_some_before_empty (minPri : Priority) (d : Dirty) :
    ∀ L : List Priority,
      L.Pairwise (fun x y => y.toNat < x.toNat) →
      ∀ (id : String) (ch : EntityChange) (p : Priority) (d' : Dirty),
        popScan minPri d L = (some (id, ch, p), d') →
        ∀ q ∈ L, p.toNat < q.toNat → ¬ q.toNat < minPri.toNat → d q = [] := by
  intro L
  induction L with
  | nil => intro _ id ch p d' h; simp [popScan] at h
  | cons a rest ih =>
    intro hpw id ch p d' h q hq hlt hel
    have hpw' := (List.pairwise_cons.mp hpw).2
    have hrest := (List.pairwise_cons.mp hpw).1
    by_cases ha : a.toNat < minPri.toNat
    · have h' : popScan minPri d rest = (some (id, ch, p), d') := by
        simpa [popScan, ha] using h
      rcases List.mem_cons.mp hq with hqa | hqr
      · subst hqa; exact absurd ha hel
      · exact ih hpw' id ch p d' h' q hqr hlt hel
    · rcases hd : d a with _ | ⟨⟨i0, c0⟩, tail⟩
      · have h' : popScan minPri d rest = (some (id, ch, p), d') := by
          simpa [popScan, ha, hd] using h
        rcases List.mem_cons.mp hq with hqa | hqr
        · subst hqa; exact hd
        · exact ih hpw' id ch p d' h' q hqr hlt hel
      · simp only [popScan, ha, if_false, hd] at h
        have hp : p = a := by
          have h1 := congrArg Prod.fst h
          simp at h1
          exact h1.2.2.symm
        subst hp
        rcases List.mem_cons.mp hq with hqa | hqr
        · subst hqa; exact absurd hlt (lt_irrefl _)
        · exact absurd hlt (not_lt_of_gt (hrest q hqr))

/-! ## Helper lemmas: garbage collector -/

theorem gcSweep_fst (now : Int) (h : Head) :
    (gcSweep now h).1 = h.filter (fun e => ! gcExpired now e.2) := by
  induction h with
  | nil => rfl
  | cons kv rest ih =>
    by_cases he : gcExpired now kv.2
    · simp [gcSweep, he, List.filter_cons, ih]
    · simp [gcSweep, he, List.filter_cons, ih]

theorem gcSweep_snd (now : Int) (h : Head) :
    (gcSweep now h).2 = (h.filter (fun e => gcExpired now e.2)).map
      (fun e => (e.2, EntityChange.expired)) := by
  induction h with
  | nil => rfl
  | cons kv rest ih =>
    by_cases he : gcExpired now kv.2
    · simp [gcSweep, he, List.filter_cons, ih]
    · simp [gcSweep, he, List.filter_cons, ih]

/-! ## Scenario S6 and shared concrete data -/

/-- S6 entity A: geo, label "x". -/
def s6EntityA : Entity := { id := "A", label := some "x", geo := some ⟨1, 2⟩ }

/-- S6 entity B: geo, label "y". -/
def s6EntityB : Entity := { id := "B", label := some "y", geo := some ⟨3, 4⟩ }

/-- S6 entity C: no geo, label "x". -/
def s6EntityC : Entity := { id := "C", label := some "x" }

/-- S6 sub-filter `{label:"x"}`. -/
def s6FilterLabelX : EntityFilter := .mk [] none none (some "x") [] none none none

/-- S6 sub-filter `{component:[geo]}` (geo's stable tag is 11). -/
def s6FilterGeoComp : EntityFilter := .mk [] none none none [11] none none none

/-- S6 sub-filter `{id:"C"}`. -/
def s6FilterIdC : EntityFilter := .mk [] none (some "C") none [] none none none

/-- The S6 watch filter: `or: [{label:"x"}, {component:[geo]}]`,
`not: {id:"C"}`. -/
def s6Filter : EntityFilter :=
  .mk [some s6FilterLabelX, some s6FilterGeoComp] (some s6FilterIdC)
    none none [] none none none

/-- C1 counterexample: contrary to the claim, entity C **does** match the
S6 filter: because the `or` list is non-empty, `matchesEntityFilter`
returns the disjunction immediately and the `not: {id:"C"}` sub-filter is
never consulted; C matches the `{label:"x"}` alternative. -/
theorem s6_filter_accepts_C : matchesEntityFilter s6EntityC (some s6Filter) = true := by
  simp [matchesEntityFilter, anyOrMatches, s6Filter, s6FilterLabelX, s6EntityC,
    matchesComponentList, entityHasComponent, entityIntersectsGeoFilter]

/-- C1 (amended): for the S6 head state and filter
\x7bor: [\x7blabel:"x"\x7d, \x7bcomponent:[geo]\x7d], not: \x7bid:"C"\x7d\x7d,
`matchesEntityFilter` is true for A and B — and also for C, because a
non-empty `or` list short-circuits the whole evaluation and the `not`
sub-filter is ignored; the watch stream therefore yields A, B and C. -/
theorem s6_filter_matches_A_B_C :
    matchesEntityFilter s6EntityA (some s6Filter) = true ∧
    matchesEntityFilter s6EntityB (some s6Filter) = true ∧
    matchesEntityFilter s6EntityC (some s6Filter) = true := by
  refine ⟨?_, ?_, ?_⟩ <;>
    simp [matchesEntityFilter, anyOrMatches, s6Filter, s6FilterLabelX,
      s6FilterGeoComp, s6EntityA, s6EntityB, s6EntityC,
      matchesComponentList, entityHasComponent, entityIntersectsGeoFilter]

/-- A geo filter referencing another entity's geometry. -/
def geoRefFilter : GeoFilter := { geo := some (.geoEntityId "Z") }

/-- C7 counterexample: for an entity **without** a geo component the
geographic predicate answers false even under a `geoEntityId` filter —
the `entity.Geo == nil` test precedes the variant switch — so the claim's
"for every entity" is refuted. -/
theorem geoEntityId_requires_geo_counterexample :
    entityIntersectsGeoFilter s6EntityC (some geoRefFilter) = false := by
  decide

/-- C7 (amended): for every entity **that has a geo component**, a geo
filter in the `geoEntityId` variant matches (is treated as "always
match"), regardless of which entity it references. -/
theorem geoEntityId_matches_when_geo_present (entity : Entity)
    (g : GeoComponent) (gid : String) (hgeo : entity.geo = some g) :
    entityIntersectsGeoFilter entity (some { geo := some (.geoEntityId gid) }) = true := by
  simp [entityIntersectsGeoFilter, hgeo]

/-- Witness for the amended C7 theorem at entity A. -/
theorem geoEntityId_matches_when_geo_present_witness :
    entityIntersectsGeoFilter s6EntityA (some { geo := some (.geoEntityId "Z") }) = true :=
  geoEntityId_matches_when_geo_present s6EntityA ⟨1, 2⟩ "Z" rfl

/-! ## Claim theorems: sender loop -/

/-- C2: flash bypass in the sender loop.  When the drained priority is
flash and the read-capability gate does not deny the event, the step
sends `(current, kind)` immediately — never through the rate limiter
(`rateLimited = false`) and for every configured filter alike — whenever
the head entity exists or the pending kind is expired; when the entity is
missing and the kind is not expired, nothing is sent for that drain. -/
theorem flash_bypass (head : Head) (ability : Option (Entity → Bool))
    (filter : Option EntityFilter) (hasRL : Bool) (now : Int)
    (id : String) (ch : EntityChange)
    (hread : readDenied ability (headLookup head id) = false) :
    ((headLookup head id).isSome = true ∨ ch = EntityChange.expired →
      senderStep head ability filter hasRL now id ch Priority.flash =
        DrainResult.send (headLookup head id) ch false) ∧
    (headLookup head id = none → ch ≠ EntityChange.expired →
      senderStep head ability filter hasRL now id ch Priority.flash =
        DrainResult.skip) := by
  constructor
  · intro hcond
    rcases hcond with hs | he
    · simp [senderStep, hread, hs]
    · simp [senderStep, hread, he]
  · intro hmiss hne
    simp [senderStep, hread, hmiss, hne]

/-- An entity with no components but an ID, used as concrete witness data. -/
def entE : Entity := { id := "E" }

/-- Witness for the flash-bypass theorem: resolved entity present, and
missing entity with pending expired kind, both sent without rate
limiting; missing entity with a non-expired kind skipped. -/
theorem flash_bypass_witness :
    senderStep [("E", entE)] none (some s6Filter) true 0 "E"
      EntityChange.updated Priority.flash =
      DrainResult.send (some entE) EntityChange.updated false ∧
    senderStep [] none (some s6Filter) true 0 "E"
      EntityChange.expired Priority.flash =
      DrainResult.send none EntityChange.expired false ∧
    senderStep [] none (some s6Filter) true 0 "E"
      EntityChange.updated Priority.flash = DrainResult.skip := by
  refine ⟨?_, ?_, ?_⟩
  · exact (flash_bypass [("E", entE)] none (some s6Filter) true 0 "E"
      EntityChange.updated rfl).1 (Or.inl rfl)
  · exact (flash_bypass [] none (some s6Filter) true 0 "E"
      EntityChange.expired rfl).1 (Or.inr rfl)
  · exact (flash_bypass [] none (some s6Filter) true 0 "E"
      EntityChange.updated rfl).2 rfl (by decide)

/-- C10: in the non-flash path, a drained ID absent from the head store
is sent as `(nil, expired)` — the kind is overridden to expired and the
configured filter is never consulted (it only applies to resolved
entities), so every subscriber receives expirations of entities already
removed from head. -/
theorem missing_head_entity_sends_expired (head : Head)
    (ability : Option (Entity → Bool)) (filter : Option EntityFilter)
    (hasRL : Bool) (now : Int) (id : String) (ch : EntityChange)
    (p : Priority) (hp : p ≠ Priority.flash)
    (hmiss : headLookup head id = none) :
    senderStep head ability filter hasRL now id ch p =
      DrainResult.send none EntityChange.expired hasRL := by
  simp [senderStep, hmiss, readDenied, hp]

/-- Witness for the missing-head expiration theorem: empty head store,
configured filter, routine priority. -/
theorem missing_head_entity_sends_expired_witness :
    senderStep [] none (some s6Filter) true 3 "E" EntityChange.updated
      Priority.routine = DrainResult.send none EntityChange.expired true :=
  missing_head_entity_sends_expired [] none (some s6Filter) true 3 "E"
    EntityChange.updated Priority.routine (by decide) rfl

/-! ## Claim theorems: garbage collector -/

/-- C3: a GC sweep at instant `now` removes from the head store exactly
the entries whose `lifetime.until` is present, valid and strictly before
`now`, publishes one `(entity, expired)` event per removed entry, and
keeps every other entry unchanged (in place). -/
theorem gc_sweep_removes_exactly_expired (now : Int) (h : Head) :
    (gcSweep now h).1 = h.filter (fun e => ! gcExpired now e.2) ∧
    (gcSweep now h).2 = (h.filter (fun e => gcExpired now e.2)).map
      (fun e => (e.2, EntityChange.expired)) ∧
    ∀ v : Entity, gcExpired now v = true ↔
      ∃ lt u, v.lifetime = some lt ∧ lt.untilT = some u ∧
        u.valid = true ∧ u.time < now := by
  refine ⟨gcSweep_fst now h, gcSweep_snd now h, ?_⟩
  intro v
  cases hl : v.lifetime with
  | none => simp [gcExpired, hl]
  | some lt =>
    cases hu : lt.untilT with
    | none => simp [gcExpired, hl, hu]
    | some u => simp [gcExpired, hl, hu, and_assoc]

/-! ## Claim theorems: push pipeline -/

/-- C8: push is atomic with respect to authorization: when the
write-capability check denies any change of the batch, push returns an
error with the world state untouched (no timeline append, no head
mutation, no bus notification); when no change is denied, push never
rejects on content and answers `accepted = true`. -/
theorem push_batch_atomic_authorization (now : Int) (denies : Entity → Bool)
    (s : WorldState) (changes : List Entity) :
    (changes.any denies = true →
      push now denies s changes = (s, Except.error ())) ∧
    (changes.any denies = false →
      push now denies s changes = (pushList now s changes, Except.ok true)) := by
  constructor
  · intro hd; simp [push, hd]
  · intro hd; simp [push, hd]

/-- The empty world state. -/
def worldEmpty : WorldState :=
  { head := [], frozen := false, frozenAt := 0, timeline := [],
    busDirty := [], busPublished := [] }

/-- Witness for push atomicity: a denied singleton batch aborts with the
state unchanged; an authorized one is accepted. -/
theorem push_batch_atomic_authorization_witness :
    push 5 (fun _ => true) worldEmpty [entE] = (worldEmpty, Except.error ()) ∧
    push 5 (fun _ => false) worldEmpty [entE] =
      (pushList 5 worldEmpty [entE], Except.ok true) := by
  constructor
  · exact (push_batch_atomic_authorization 5 (fun _ => true) worldEmpty [entE]).1 rfl
  · exact (push_batch_atomic_authorization 5 (fun _ => false) worldEmpty [entE]).2 rfl

/-- C4: every change accepted by push (distinct IDs, live mode) is stored
— in the timeline and in the head map — with exactly the normalized
lifetime: a lifetime record is created when absent, `from` is set to the
acceptance instant when absent or invalid, and `until` is never modified
or synthesized. -/
theorem push_normalizes_lifetime (now : Int) (denies : Entity → Bool)
    (s : WorldState) (changes : List Entity)
    (hacc : changes.any denies = false) (hf : s.frozen = false)
    (hnd : (changes.map Entity.id).Nodup) :
    (push now denies s changes).1.timeline =
      s.timeline ++ changes.map (normalizeLifetime now) ∧
    (∀ e ∈ changes, headLookup (push now denies s changes).1.head e.id =
      some (normalizeLifetime now e)) ∧
    ∀ e : Entity, ∃ lt, (normalizeLifetime now e).lifetime = some lt ∧
      lt.untilT = (match e.lifetime with
        | none => none
        | some l => l.untilT) ∧
      lt.fromT = (if tsIsValid (match e.lifetime with
          | none => none
          | some l => l.fromT) = true
        then (match e.lifetime with
          | none => none
          | some l => l.fromT)
        else some { time := now, valid := true }) := by
  have hpush : (push now denies s changes).1 = pushList now s changes := by
    simp [push, hacc]
  refine ⟨?_, ?_, ?_⟩
  · rw [hpush, pushList_timeline]
  · intro e he
    rw [hpush, pushList_headLookup now s changes e.id hf,
      lastWith_nodup changes e hnd he]
  · intro e
    cases hl : e.lifetime with
    | none =>
      refine ⟨_, rfl, ?_, ?_⟩ <;> simp [normalizeLifetime, hl, tsIsValid]
    | some l =>
      by_cases hv : tsIsValid l.fromT = true
      · refine ⟨_, rfl, ?_, ?_⟩ <;> simp [normalizeLifetime, hl, hv]
      · have hv' : tsIsValid l.fromT = false := by
          revert hv; cases tsIsValid l.fromT <;> simp
        refine ⟨_, rfl, ?_, ?_⟩ <;> simp [normalizeLifetime, hl, hv']

/-- An entity with an invalid `from` and a set `until`, as witness data. -/
def entW : Entity :=
  { id := "W", lifetime := some { fromT := none, untilT := some ⟨9, true⟩ } }

/-- Witness for lifetime normalization: pushing `entW` (absent `from`,
`until = 9`) at instant 5 stores `from = 5` and leaves `until` alone. -/
theorem push_normalizes_lifetime_witness :
    (push 5 (fun _ => false) worldEmpty [entW]).1.timeline =
      worldEmpty.timeline ++ [entW].map (normalizeLifetime 5) ∧
    headLookup (push 5 (fun _ => false) worldEmpty [entW]).1.head "W" =
      some (normalizeLifetime 5 entW) := by
  have h := push_normalizes_lifetime 5 (fun _ => false) worldEmpty [entW]
    rfl rfl (by simp)
  exact ⟨h.1, h.2.1 entW (List.mem_singleton.mpr rfl)⟩

/-- C9: freeze semantics.  With the freeze flag set, an accepted push
still appends every (normalized) change to the timeline but leaves the
head map untouched and issues no bus notification, and the GC evaluates
expiry at the recorded freeze instant; with the flag clear, push
overwrites head entries (last write per ID wins) and notifies the bus
once per change, and the GC uses wall-time. -/
theorem freeze_flag_semantics (now wallNow : Int) (denies : Entity → Bool)
    (s : WorldState) (changes : List Entity)
    (hacc : changes.any denies = false) :
    (s.frozen = true →
      (push now denies s changes).1.timeline =
        s.timeline ++ changes.map (normalizeLifetime now) ∧
      (push now denies s changes).1.head = s.head ∧
      (push now denies s changes).1.busDirty = s.busDirty) ∧
    (s.frozen = false →
      (push now denies s changes).1.busDirty = s.busDirty ++
        changes.map (fun e => (e.id, normalizeLifetime now e, EntityChange.updated)) ∧
      ∀ id, headLookup (push now denies s changes).1.head id =
        match lastWith changes id with
        | some e => some (normalizeLifetime now e)
        | none => headLookup s.head id) ∧
    (s.frozen = true → gcRun wallNow s = gcAt s.frozenAt s) ∧
    (s.frozen = false → gcRun wallNow s = gcAt wallNow s) := by
  have hpush : (push now denies s changes).1 = pushList now s changes := by
    simp [push, hacc]
  refine ⟨?_, ?_, ?_, ?_⟩
  · intro hf
    exact ⟨by rw [hpush, pushList_timeline],
      by rw [hpush, pushList_head_frozen now s changes hf],
      by rw [hpush, pushList_busDirty_frozen now s changes hf]⟩
  · intro hf
    exact ⟨by rw [hpush, pushList_busDirty now s changes hf],
      fun id => by rw [hpush, pushList_headLookup now s changes id hf]⟩
  · intro hf; simp [gcRun, hf]
  · intro hf; simp [gcRun, hf]

/-- A frozen world state holding entity E, with freeze instant 7. -/
def worldFrozen : WorldState :=
  { head := [("E", entE)], frozen := true, frozenAt := 7, timeline := [],
    busDirty := [], busPublished := [] }

/-- Witness for the freeze semantics: a frozen push archives but does not
touch head or bus, its GC runs at the freeze instant; a live GC runs at
wall-time. -/
theorem freeze_flag_semantics_witness :
    (push 5 (fun _ => false) worldFrozen [entW]).1.head = worldFrozen.head ∧
    (push 5 (fun _ => false) worldFrozen [entW]).1.busDirty = worldFrozen.busDirty ∧
    (push 5 (fun _ => false) worldFrozen [entW]).1.timeline =
      worldFrozen.timeline ++ [entW].map (normalizeLifetime 5) ∧
    gcRun 11 worldFrozen = gcAt worldFrozen.frozenAt worldFrozen ∧
    gcRun 11 worldEmpty = gcAt 11 worldEmpty := by
  have hfz := freeze_flag_semantics 5 11 (fun _ => false) worldFrozen [entW] rfl
  have hlive := freeze_flag_semantics 5 11 (fun _ => false) worldEmpty [] rfl
  exact ⟨(hfz.1 rfl).2.1, (hfz.1 rfl).2.2, (hfz.1 rfl).1,
    hfz.2.2.1 rfl, hlive.2.2.2 rfl⟩

/-! ## Claim theorems: dirty set -/

/-- C5: each entity ID occupies at most one priority slot of a consumer's
dirty set after any sequence of `markDirty` / `popNext` operations;
`markDirty` at an eligible priority re-seats the ID — it removes it from
every slot and inserts it only into the selected slot with the new kind —
while `markDirty` below `minPriority` leaves all slots unchanged. -/
theorem dirty_set_at_most_one_slot :
    (∀ (minPri : Priority) (ops : List ConsumerOp) (id : String),
        slotCount (applyOps minPri dirtyInit ops) id ≤ 1) ∧
    (∀ (minPri : Priority) (d : Dirty) (id : String) (p : Priority)
        (k : EntityChange), p.toNat < minPri.toNat →
        markDirty minPri d id p k = d) ∧
    (∀ (minPri : Priority) (d : Dirty) (id : String) (p : Priority)
        (k : EntityChange), ¬ p.toNat < minPri.toNat →
        markDirty minPri d id p k p = slotRemove (d p) id ++ [(id, k)] ∧
        ∀ q, q ≠ p → markDirty minPri d id p k q = slotRemove (d q) id) := by
  refine ⟨?_, ?_, ?_⟩
  · intro minPri ops id
    exact slotCount_applyOps_le_one minPri id ops dirtyInit
      (by simp [slotCount, dirtyInit, slotHas])
  · intro minPri d id p k hp
    simp [markDirty, hp]
  · intro minPri d id p k hp
    exact ⟨by rw [markDirty_eq minPri d id p k hp p]; simp,
      fun q hq => by rw [markDirty_eq minPri d id p k hp q]; simp [hq]⟩

/-- Witness for the dirty-set invariant: a double mark of the same ID at
two priorities keeps one pending entry; a mark below `minPriority`
(unspecified < routine) is discarded; an eligible mark lands in its
slot. -/
theorem dirty_set_at_most_one_slot_witness :
    slotCount (applyOps Priority.routine dirtyInit
      [ConsumerOp.mark "e1" Priority.routine EntityChange.updated,
       ConsumerOp.mark "e1" Priority.immediate EntityChange.expired]) "e1" ≤ 1 ∧
    markDirty Priority.routine dirtyInit "e2" Priority.unspecified
      EntityChange.updated = dirtyInit ∧
    markDirty Priority.routine dirtyInit "e3" Priority.flash
      EntityChange.updated Priority.flash =
      slotRemove (dirtyInit Priority.flash) "e3" ++
        [("e3", EntityChange.updated)] :=
  ⟨dirty_set_at_most_one_slot.1 Priority.routine
      [ConsumerOp.mark "e1" Priority.routine EntityChange.updated,
       ConsumerOp.mark "e1" Priority.immediate EntityChange.expired] "e1",
   dirty_set_at_most_one_slot.2.1 Priority.routine dirtyInit "e2"
      Priority.unspecified EntityChange.updated (by decide),
   (dirty_set_at_most_one_slot.2.2 Priority.routine dirtyInit "e3"
      Priority.flash EntityChange.updated (by decide)).1⟩

/-- C6: `popNext` drains in strict priority order: any returned entry
comes from an eligible (≥ `minPriority`) slot, is that slot's first
entry and is removed from it, every eligible slot of strictly higher
priority is empty at that point, and when all eligible slots are empty
the dirty set is returned unmodified with no entry. -/
theorem popNext_strict_priority_order (minPri : Priority) (d : Dirty) :
    (∀ (id : String) (ch : EntityChange) (p : Priority) (d' : Dirty),
        popNext minPri d = (some (id, ch, p), d') →
        ¬ p.toNat < minPri.toNat ∧
        (∃ tail, d p = (id, ch) :: tail ∧
          d' = fun q => if q = p then tail else d q) ∧
        ∀ q : Priority, p.toNat < q.toNat → ¬ q.toNat < minPri.toNat →
          d q = []) ∧
    ((∀ p : Priority, ¬ p.toNat < minPri.toNat → d p = []) →
      popNext minPri d = (none, d)) := by
  constructor
  · intro id ch p d' h
    obtain ⟨hel, tail, hdp, hd'⟩ :=
      popScan_some_inv minPri d
        [Priority.flash, Priority.immediate, Priority.routine,
         Priority.unspecified] id ch p d' h
    refine ⟨hel, ⟨tail, hdp, hd'⟩, ?_⟩
    intro q hlt hqel
    have hpw : ([Priority.flash, Priority.immediate, Priority.routine,
        Priority.unspecified] : List Priority).Pairwise
        (fun x y => y.toNat < x.toNat) := by decide
    have hqmem : q ∈ ([Priority.flash, Priority.immediate, Priority.routine,
        Priority.unspecified] : List Priority) := by cases q <;> simp
    exact popScan_some_before_empty minPri d _ hpw id ch p d' h q hqmem hlt hqel
  · intro hempty
    exact popScan_none_of_empty minPri d _ (fun p _ => hempty p)

/-- A dirty set with the same single entry in every slot, as witness data. -/
def popWitnessDirty : Dirty := fun _ => [("a", EntityChange.updated)]

/-- The dirty set after draining the flash slot of `popWitnessDirty`. -/
def popWitnessDirtyAfter : Dirty :=
  fun q => if q = Priority.flash then [] else popWitnessDirty q

/-- Witness for the priority-order theorem: an empty dirty set pops
nothing; draining a fully loaded set returns the flash entry, which is
eligible. -/
theorem popNext_strict_priority_order_witness :
    popNext Priority.routine dirtyInit = (none, dirtyInit) ∧
    ¬ Priority.flash.toNat < Priority.unspecified.toNat :=
  ⟨(popNext_strict_priority_order Priority.routine dirtyInit).2
      (fun _ _ => rfl),
   ((popNext_strict_priority_order Priority.unspecified popWitnessDirty).1
      "a" EntityChange.updated Priority.flash popWitnessDirtyAfter rfl).1⟩
